import Mathlib

set_option maxRecDepth 8000

/-!
Shallow embedding of the browserslist-useragent matching core (src/index.ts).

Conventions used throughout:
* JavaScript strings are Lean `String`s; internal scanning works on `String.data`
  (`List Char`) so that everything computes by structural recursion.
* `null` / `undefined` string fields become `Option String` (`none`).
* The external semver library functions actually used by the source
  (`coerce` with loose parsing, `gte`, `satisfies` on the range shapes the
  source builds, `inc _ "minor"`) are modelled concretely below; every version
  string flowing through them in the source is a canonical `major.minor.patch`
  render, with no prerelease or build parts, so plain triple comparison is the
  exact semantics.
* The `while` loop of `generateSemversInRange` is embedded with explicit fuel:
  `none` means the loop did not finish within the given fuel.  Termination and
  divergence are then expressed as facts about all fuels.
* A thrown `TypeError` (dereferencing an `undefined` version) is modelled by
  the `JsOutcome.thrown` constructor.
-/

/-- A parsed semantic version: the coerced versions in this program never carry
prerelease or build identifiers, so a triple of numerals is the whole state. -/
structure SemVer where
  major : Nat
  minor : Nat
  patch : Nat
deriving DecidableEq, Repr

/-- JavaScript Number.MAX_SAFE_INTEGER; semver refuses numeric identifiers above it. -/
def maxSafeInteger : Nat := 9007199254740991

/-- semver.gte on plain (prerelease-free) versions: lexicographic triple order. -/
def semverGte (a b : SemVer) : Bool :=
  decide (b.major < a.major ∨ (b.major = a.major ∧
    (b.minor < a.minor ∨ (b.minor = a.minor ∧ b.patch ≤ a.patch))))

/-- semver strict less-than, the complement of `semverGte` on this total order. -/
def semverLtV (a b : SemVer) : Bool := !(semverGte a b)

/-- semver.inc(v, "minor") on a plain version: bump minor, reset patch. -/
def incMinor (v : SemVer) : SemVer := { major := v.major, minor := v.minor + 1, patch := 0 }

/-- Render a version triple the way semver's `.version` field does. -/
def renderSemVer (v : SemVer) : String :=
  toString v.major ++ "." ++ toString v.minor ++ "." ++ toString v.patch

/-- Numeric value of a digit run (most significant digit first). -/
def digitsVal (cs : List Char) : Nat :=
  cs.foldl (fun n c => n * 10 + (c.toNat - 48)) 0

/-- Split a char list into its leading maximal digit run and the remainder. -/
def takeDigits : List Char → List Char × List Char
  | [] => ([], [])
  | c :: cs =>
    if c.isDigit then
      let (d, r) := takeDigits cs
      (c :: d, r)
    else ([], c :: cs)

/-- Scan for the first maximal digit run of length at most 16 (semver's COERCE
regular expression bounds each numeric group at 16 digits and requires a
non-digit or string edge on both sides, so longer runs can never take part in a
match and are skipped whole).  Returns the run's value and the characters after
the run.  The accumulator holds the current run, most recent digit first. -/
def majorScan : List Char → List Char → Option (Nat × List Char)
  | acc, [] =>
    if acc ≠ [] ∧ acc.length ≤ 16 then some (digitsVal acc.reverse, []) else none
  | acc, c :: cs =>
    if c.isDigit then majorScan (c :: acc) cs
    else if acc ≠ [] ∧ acc.length ≤ 16 then some (digitsVal acc.reverse, c :: cs)
    else majorScan [] cs

/-- semver.coerce(s, loose): pick out the first `major(.minor(.patch))` digit
groups of the string, defaulting missing groups to 0; reject components above
`Number.MAX_SAFE_INTEGER` (the subsequent parse of the rebuilt string fails and
coerce reports failure rather than trying a later match). -/
def coerceVersion (s : String) : Option SemVer :=
  match majorScan [] s.data with
  | none => none
  | some (maj, rest) =>
    let minorStep : Option Nat × List Char :=
      match rest with
      | '.' :: r =>
        match takeDigits r with
        | (d, r2) => if d ≠ [] ∧ d.length ≤ 16 then (some (digitsVal d), r2) else (none, rest)
      | _ => (none, rest)
    let patchStep : Option Nat :=
      match minorStep.1, minorStep.2 with
      | some _, '.' :: r =>
        match takeDigits r with
        | (d, _) => if d ≠ [] ∧ d.length ≤ 16 then some (digitsVal d) else none
      | _, _ => none
    let M := maj
    let m := (minorStep.1).getD 0
    let p := patchStep.getD 0
    if M ≤ maxSafeInteger ∧ m ≤ maxSafeInteger ∧ p ≤ maxSafeInteger then
      some { major := M, minor := m, patch := p }
    else none

/-- `semverify` from src/index.ts, at the version-triple level: empty, null and
undefined inputs fail up front (JS falsiness of the argument), then loose
coercion decides. -/
def semverifyV (version : Option String) : Option SemVer :=
  match version with
  | none => none
  | some s => if s = "" then none else coerceVersion s

/-- `semverify` from src/index.ts: convert a loose version token to its
canonical three-part render, or `none` on empty/null/uncoercible input. -/
def semverify (version : Option String) : Option String :=
  (semverifyV version).map renderSemVer

/-- JS String.prototype.split with a single-character separator
(`"".split(c) = [""]`, separators at the edges produce empty groups). -/
def splitChar (sep : Char) : List Char → List (List Char)
  | [] => [[]]
  | c :: cs =>
    let r := splitChar sep cs
    if c = sep then [] :: r
    else (c :: r.headD []) :: r.tail

/-- Check that every character is an ASCII digit. -/
def allDigits (cs : List Char) : Bool := cs.all Char.isDigit

/-- Parse a canonical `major.minor.patch` string (the only version shape the
source ever hands to semver's comparison functions) back into a triple. -/
def parseCanon (s : String) : Option SemVer :=
  match splitChar '.' s.data with
  | [a, b, c] =>
    if a ≠ [] ∧ b ≠ [] ∧ c ≠ [] ∧ allDigits a ∧ allDigits b ∧ allDigits c then
      some { major := digitsVal a, minor := digitsVal b, patch := digitsVal c }
    else none
  | _ => none

/-- semver.gte at the string level, as called by the source on canonical
renders.  (semver throws on unparsable input; that path is unreachable here
because both arguments always come from `semverify`, so it is collapsed to
`false`.) -/
def semverGteStr (a b : String) : Bool :=
  match parseCanon a, parseCanon b with
  | some x, some y => semverGte x y
  | _, _ => false

/-- semver.satisfies for the three range shapes the comparator builds:
a bare canonical version (exact equality), `~M.m.p` (at least it, below the
next minor) and `^M.m.p` (at least it, below the next major; with the usual
caret special cases for major 0). -/
def satisfiesStr (version range : String) : Bool :=
  match parseCanon version with
  | none => false
  | some v =>
    match range.data with
    | '~' :: rest =>
      match parseCanon (String.mk rest) with
      | some r => semverGte v r && semverLtV v { major := r.major, minor := r.minor + 1, patch := 0 }
      | none => false
    | '^' :: rest =>
      match parseCanon (String.mk rest) with
      | some r =>
        if r.major > 0 then
          semverGte v r && semverLtV v { major := r.major + 1, minor := 0, patch := 0 }
        else if r.minor > 0 then
          semverGte v r && semverLtV v { major := 0, minor := r.minor + 1, patch := 0 }
        else
          semverGte v r && semverLtV v { major := 0, minor := 0, patch := r.patch + 1 }
      | none => false
    | _ =>
      match parseCanon range with
      | some r => decide (v = r)
      | none => false

/-- The body of `generateSemversInRange`'s while loop, with explicit fuel:
`none` means the loop did not finish within `fuel` iterations.  The loop in the
source walks canonical version strings; since `semver.inc` and `semver.gte`
operate on their parses and every string involved is a canonical render, the
loop is carried at the triple level and rendered on exit. -/
def genLoopFuel (endV : SemVer) (cur : SemVer) : Nat → Option (List SemVer)
  | 0 => none
  | fuel + 1 =>
    if semverGte endV cur then
      (genLoopFuel endV (incMinor cur) fuel).map (cur :: ·)
    else some []

/-- The two normalized boundaries of a range token: JS destructuring of
`versionRange.split('-')` takes the first two groups (`end` is `undefined`
when there is no hyphen), and each goes through `semverify`. -/
def rangeBounds (versionRange : String) : Option SemVer × Option SemVer :=
  let parts := splitChar '-' versionRange.data
  (semverifyV (some (String.mk (parts.headD []))),
   semverifyV ((parts.drop 1).head?.map String.mk))

/-- `generateSemversInRange` from src/index.ts, fueled: if either boundary
fails to normalize return the empty list, else run the minor-stepping loop. -/
def generateSemversInRange (versionRange : String) (fuel : Nat) : Option (List String) :=
  match rangeBounds versionRange with
  | (some startSemver, some endSemver) =>
    (genLoopFuel endSemver startSemver fuel).map (List.map renderSemVer)
  | _ => some []

/-- `browserNameMap` from src/index.ts, in object-literal insertion order
(the order `Object.keys` reports, which the alias regular expression uses). -/
def browserNameMapL : List (String × String) :=
  [("bb", "BlackBerry"),
   ("and_chr", "Chrome"),
   ("ChromeAndroid", "Chrome"),
   ("FirefoxAndroid", "Firefox"),
   ("ff", "Firefox"),
   ("ie_mob", "ExplorerMobile"),
   ("ie", "Explorer"),
   ("and_ff", "Firefox"),
   ("ios_saf", "iOS"),
   ("op_mini", "OperaMini"),
   ("op_mob", "OperaMobile"),
   ("and_qq", "QQAndroid"),
   ("and_uc", "UCAndroid")]

/-- Exact-key lookup in the alias map (the `name in browserNameMap` test of
`parseBrowsersList`; JS prototype-chain membership is below this model's
abstraction level and never hit by query-resolver output). -/
def lookupAlias (name : String) : Option String :=
  (browserNameMapL.find? (fun kv => kv.1 = name)).map (fun kv => kv.2)

/-- Does one of the alias keys start at this position?  Keys are tried in map
order, exactly the alternation order of the regular expression
`(bb|and_chr|...)` that `normalizeQuery` builds. -/
def findAliasAt (cs : List Char) : Option (String × String) :=
  browserNameMapL.find? (fun kv => List.isPrefixOf kv.1.data cs)

/-- Scan left to right for the first position where an alias key matches;
rewrite that one occurrence to the canonical name and keep everything else.
`none` when no key occurs anywhere (the query is then returned unchanged).
This is exactly the leftmost-match semantics of `query.match(regex)` followed
by `query.replace(match[0], ...)`: the replacement target cannot occur earlier
than the leftmost position at which any alternative matches. -/
def normalizeQueryAux : List Char → Option (List Char)
  | [] => none
  | c :: cs =>
    match findAliasAt (c :: cs) with
    | some kv => some (kv.2.data ++ (c :: cs).drop kv.1.length)
    | none => (normalizeQueryAux cs).map (c :: ·)

/-- `normalizeQuery` from src/index.ts. -/
def normalizeQuery (query : String) : String :=
  match normalizeQueryAux query.data with
  | some cs => String.mk cs
  | none => query

/-- One expanded support-policy entry: canonical family plus a single version
token (ranges are expanded away before this shape is produced). -/
structure QueryEntry where
  family : String
  version : String
deriving DecidableEq, Repr

/-- Result of running a piece of JS that may throw: either a value or a thrown
TypeError. -/
inductive JsOutcome (α : Type) where
  | ok : α → JsOutcome α
  | thrown : JsOutcome α
deriving DecidableEq, Repr

/-- The first `.map` of `parseBrowsersList`: destructure
`browser.split(' ')` into the first group and the (possibly undefined)
second group. -/
def splitEntry (s : String) : String × Option String :=
  let parts := splitChar ' ' s.data
  (String.mk (parts.headD []), ((parts.drop 1).head?).map String.mk)

/-- The `browser.version.indexOf('-') > 0` test: a hyphen occurs and the first
one is not at position 0. -/
def hyphenAfterStart (s : String) : Bool :=
  match s.data with
  | [] => false
  | c :: cs => decide (c ≠ '-') && cs.contains '-'

/-- Processing of one already-split entry by `parseBrowsersList`'s filter and
second map: drop technology previews, alias the name, expand in-place ranges.
A missing version token (an entry without a space) survives the `!== 'TP'`
filter and then crashes the hyphen test with a TypeError. -/
def processEntry (fuel : Nat) (e : String) : Option (JsOutcome (List QueryEntry)) :=
  let (name, versionOpt) := splitEntry e
  if versionOpt = some "TP" then some (.ok [])
  else
    let normalizedName := match lookupAlias name with
      | some canonical => canonical
      | none => name
    match versionOpt with
    | none => some .thrown
    | some version =>
      if hyphenAfterStart version then
        (generateSemversInRange version fuel).map
          (fun vs => .ok (vs.map (fun v => { family := normalizedName, version := v })))
      else some (.ok [{ family := normalizedName, version := version }])

/-- `parseBrowsersList` from src/index.ts, with the three array stages fused
into one left-to-right pass per entry (each stage is pure, so the first entry
to throw or diverge decides the overall outcome, as in the staged original). -/
def parseBrowsersList (browsersList : List String) (fuel : Nat) :
    Option (JsOutcome (List QueryEntry)) :=
  match browsersList with
  | [] => some (.ok [])
  | b :: rest =>
    match processEntry fuel b with
    | none => none
    | some .thrown => some .thrown
    | some (.ok items) =>
      match parseBrowsersList rest fuel with
      | none => none
      | some .thrown => some .thrown
      | some (.ok restItems) => some (.ok (items ++ restItems))

/-- The fields the external UA parser supplies; every string field is nullable. -/
structure ParsedUA where
  browserName : Option String
  browserVersion : Option String
  osName : Option String
  osVersion : Option String
  engineName : Option String
  engineVersion : Option String
  deviceType : Option String
deriving DecidableEq, Repr

/-- The canonicalized identity `resolveUserAgent` produces. -/
structure ResolvedAgent where
  family : Option String
  version : Option String
deriving DecidableEq, Repr

/-- JS `x || null` on a nullable string: empty string is falsy. -/
def jsOrNull (s : Option String) : Option String :=
  match s with
  | some v => if v = "" then none else some v
  | none => none

/-- JS truthiness of a nullable string. -/
def truthyStr (s : Option String) : Bool :=
  match s with
  | some v => decide (v ≠ "")
  | none => false

/-- `resolveUserAgent` from src/index.ts: the ordered, first-match-wins
heuristic chain over the parsed UA fields. -/
def resolveUserAgent (ua : ParsedUA) : ResolvedAgent :=
  let parsedBrowserVersion := semverify ua.browserVersion
  let parsedOSVersion := semverify ua.osVersion
  let parsedEngineVersion := semverify ua.engineVersion
  if ua.browserName = some "Safari" ∧ ua.osName = some "iOS" then
    { family := some "iOS", version := parsedBrowserVersion }
  else if ua.osName = some "iOS" then
    { family := some "iOS", version := parsedOSVersion }
  else if (ua.browserName = some "Opera" ∧ ua.deviceType = some "mobile") ∨
      ua.browserName = some "Opera Mobi" then
    { family := some "OperaMobile", version := parsedBrowserVersion }
  else if ua.browserName = some "Samsung Internet" then
    { family := some "Samsung", version := parsedBrowserVersion }
  else if ua.browserName = some "IE" then
    { family := some "Explorer", version := parsedBrowserVersion }
  else if ua.browserName = some "IEMobile" then
    { family := some "ExplorerMobile", version := parsedBrowserVersion }
  else if ua.engineName = some "Gecko" then
    { family := some "Firefox", version := parsedEngineVersion }
  else if ua.engineName = some "Blink" then
    { family := some "Chrome", version := parsedEngineVersion }
  else if truthyStr ua.browserName ∧
      ["Chrome", "Chromium", "Chrome WebView", "Chrome Headless"].contains
        (ua.browserName.getD "") then
    { family := some "Chrome", version := parsedBrowserVersion }
  else if ua.browserName = some "Android Browser" then
    { family := some "Android", version := parsedOSVersion }
  else
    { family := jsOrNull ua.browserName, version := parsedBrowserVersion }

/-- The `Options` record.  Each boolean is `Option Bool`: `none` models a key
the caller did not supply, so that the orchestrator's `{defaults, ...opts}`
merge keeps the defaults exactly when the key is absent.  The `env` and `path`
fields are consumed only by the external support-policy resolver and are
folded into the resolver parameter of `matchesUA`. -/
structure Options where
  browsers : Option (List String) := none
  ignoreMinor : Option Bool := none
  ignorePatch : Option Bool := none
  allowHigherVersions : Option Bool := none
deriving DecidableEq, Repr

/-- JS truthiness of a possibly-absent boolean option. -/
def truthy (b : Option Bool) : Bool := b.getD false

/-- `compareBrowserSemvers` from src/index.ts.  The two tolerance rewrites are
sequential assignments, not an else-chain: when both flags are set the
`ignoreMinor` caret overwrites the `ignorePatch` tilde. -/
def compareBrowserSemvers (versionA versionB : String) (options : Options) : Bool :=
  match semverify (some versionA), semverify (some versionB) with
  | some semverifiedA, some semverifiedB =>
    let referenceVersion := semverifiedB
    let referenceVersion :=
      if truthy options.ignorePatch then "~" ++ semverifiedB else referenceVersion
    let referenceVersion :=
      if truthy options.ignoreMinor then "^" ++ semverifiedB else referenceVersion
    if truthy options.allowHigherVersions then semverGteStr semverifiedA semverifiedB
    else satisfiesStr semverifiedA referenceVersion
  | _, _ => false

/-- ASCII lowercasing, the common meaning of `toLowerCase` and
`toLocaleLowerCase` on the family names this program compares. -/
def lowerStr (s : String) : String := String.mk (s.data.map Char.toLower)

/-- `matchesUA` from src/index.ts.  The external support-policy resolver
(browserslist with its `env`/`path` configuration) and the external UA parser
are passed in as function parameters; the embedded code is everything the
source itself does around them. -/
def matchesUA (blResolver : Option (List String) → List String)
    (uaParse : String → ParsedUA) (uaString : String) (opts : Options)
    (fuel : Nat) : Option (JsOutcome Bool) :=
  if uaString = "" then some (.ok false)
  else
    let normalizedQuery := opts.browsers.map (fun l => l.map normalizeQuery)
    let browsers := blResolver normalizedQuery
    match parseBrowsersList browsers fuel with
    | none => none
    | some .thrown => some .thrown
    | some (.ok parsedBrowsers) =>
      let resolvedUserAgent := resolveUserAgent (uaParse uaString)
      let options : Options :=
        { opts with
          ignoreMinor := some (truthy opts.ignoreMinor),
          ignorePatch := some (opts.ignorePatch.getD true) }
      some (.ok (parsedBrowsers.any (fun browser =>
        match resolvedUserAgent.family, resolvedUserAgent.version with
        | some fam, some ver =>
          if fam = "" ∨ ver = "" ∨ browser.version = "" then false
          else
            lowerStr browser.family = lowerStr fam &&
              compareBrowserSemvers ver browser.version options
        | _, _ => false)))

/-- The i-th version visited by the range loop: the normalized start itself,
then minor steps with the patch reset to 0. -/
def stepVersion (sv : SemVer) (i : Nat) : SemVer :=
  if i = 0 then sv else { major := sv.major, minor := sv.minor + i, patch := 0 }

/-- How many versions the loop visits when it terminates. -/
def enumCount (sv ev : SemVer) : Nat :=
  if semverGte ev sv then ev.minor + 1 - sv.minor else 0

/-- The finite enumeration the loop produces when it terminates. -/
def enumFrom (sv ev : SemVer) : List SemVer :=
  (List.range (enumCount sv ev)).map (stepVersion sv)

/-- The range expansion terminates on this token for some fuel. -/
def rangeTerminates (versionRange : String) : Prop :=
  ∃ fuel, (generateSemversInRange versionRange fuel).isSome = true

/-- Some alias key occurs as a substring (at some position) of the text. -/
def containsAliasKey : List Char → Bool
  | [] => false
  | c :: cs => (findAliasAt (c :: cs)).isSome || containsAliasKey cs

/-- Claim C1 (amended): with `allowHigherVersions` unset, the comparator tests
normalized a against a reference range built from normalized q, but the two
tolerance rewrites are successive overwrites, so `ignoreMinor`'s caret range
wins when both flags are set; the single-flag examples hold as stated. -/
theorem claim_C1_comparator_reference_range :
    (∀ (a q : String) (opts : Options) (sa sb : String),
      semverify (some a) = some sa → semverify (some q) = some sb →
      truthy opts.allowHigherVersions = false →
      compareBrowserSemvers a q opts =
        satisfiesStr sa
          (if truthy opts.ignoreMinor then "^" ++ sb
           else if truthy opts.ignorePatch then "~" ++ sb else sb)) ∧
    compareBrowserSemvers "10.2.1" "10.2.0" { ignorePatch := some true } = true ∧
    compareBrowserSemvers "10.3.0" "10.2.0" { ignorePatch := some true } = false := by
  refine ⟨?_, by decide, by decide⟩
  intro a q opts sa sb ha hb hah
  unfold compareBrowserSemvers
  rw [ha, hb]
  simp only [hah]
  cases hm : truthy opts.ignoreMinor <;> cases hp : truthy opts.ignorePatch <;>
    simp [hm, hp]

/-- Witness for C1: the comparator agrees with the reference-range formula at a
concrete input with `ignorePatch` set. -/
theorem claim_C1_comparator_reference_range_witness :
    compareBrowserSemvers "1.2.3" "1.2.0" { ignorePatch := some true } =
      satisfiesStr "1.2.3"
        (if truthy (Options.ignoreMinor { ignorePatch := some true }) then "^" ++ "1.2.0"
         else if truthy (Options.ignorePatch { ignorePatch := some true }) then "~" ++ "1.2.0"
         else "1.2.0") :=
  claim_C1_comparator_reference_range.1 "1.2.3" "1.2.0" { ignorePatch := some true }
    "1.2.3" "1.2.0" (by decide) (by decide) (by decide)

/-- Counterexample for C1 as stated: when both flags are set the claim says the
`~q` range wins, which would reject minor drift, yet the code accepts
10.3.0 against 10.2.0 (its overwritten reference range is `^10.2.0`). -/
theorem claim_C1_comparator_reference_range_cex :
    compareBrowserSemvers "10.3.0" "10.2.0"
      { ignoreMinor := some true, ignorePatch := some true } = true ∧
    satisfiesStr "10.3.0" "~10.2.0" = false := by decide

/-- Claim C2 (confirmed): the iOS rules of `resolveUserAgent` are ordered and
first-match-wins: Safari on iOS reports the browser version, any other iOS
browser reports the OS version. -/
theorem claim_C2_resolve_ios_rules :
    (∀ ua : ParsedUA, ua.browserName = some "Safari" → ua.osName = some "iOS" →
      resolveUserAgent ua = { family := some "iOS", version := semverify ua.browserVersion }) ∧
    (∀ ua : ParsedUA, ua.osName = some "iOS" → ua.browserName ≠ some "Safari" →
      resolveUserAgent ua = { family := some "iOS", version := semverify ua.osVersion }) := by
  constructor
  · intro ua h1 h2
    simp [resolveUserAgent, h1, h2]
  · intro ua h1 h2
    simp [resolveUserAgent, h1, h2]

/-- Witness for C2: a concrete Safari-on-iOS parse result resolves to family
iOS with the browser's version. -/
theorem claim_C2_resolve_ios_rules_witness :
    resolveUserAgent
        { browserName := some "Safari", browserVersion := some "14.1",
          osName := some "iOS", osVersion := some "14.0",
          engineName := none, engineVersion := none, deviceType := none } =
      { family := some "iOS", version := semverify (some "14.1") } :=
  claim_C2_resolve_ios_rules.1
    { browserName := some "Safari", browserVersion := some "14.1",
      osName := some "iOS", osVersion := some "14.0",
      engineName := none, engineVersion := none, deviceType := none } rfl rfl

/-- Claim C5 (confirmed): with `allowHigherVersions` set the comparator is
exactly semantic at-least, whatever the tolerance flags say. -/
theorem claim_C5_allow_higher_versions :
    (∀ (a q : String) (opts : Options) (sa sb : String),
      semverify (some a) = some sa → semverify (some q) = some sb →
      truthy opts.allowHigherVersions = true →
      compareBrowserSemvers a q opts = semverGteStr sa sb) ∧
    compareBrowserSemvers "9.0.0" "10.0.0" { allowHigherVersions := some true } = false ∧
    compareBrowserSemvers "11.0.0" "10.0.0" { allowHigherVersions := some true } = true ∧
    compareBrowserSemvers "11.0.0" "10.0.0"
      { ignoreMinor := some true, ignorePatch := some true,
        allowHigherVersions := some true } = true := by
  refine ⟨?_, by decide, by decide, by decide⟩
  intro a q opts sa sb ha hb hah
  unfold compareBrowserSemvers
  rw [ha, hb]
  simp [hah]

/-- Witness for C5: at a concrete higher resolved version the comparator equals
the semantic at-least test. -/
theorem claim_C5_allow_higher_versions_witness :
    compareBrowserSemvers "11.0.0" "10.0.0" { allowHigherVersions := some true } =
      semverGteStr "11.0.0" "10.0.0" :=
  claim_C5_allow_higher_versions.1 "11.0.0" "10.0.0" { allowHigherVersions := some true }
    "11.0.0" "10.0.0" (by decide) (by decide) (by decide)

/-- Claim C6 (confirmed): `semverify` maps null/undefined, the empty string and
every uncoercible token to `none` (it is a total function, so failure is the
null return, never an exception), and renders every coercible token as the
canonical three-part version with missing components as zero. -/
theorem claim_C6_semverify_null_contract :
    semverify none = none ∧
    semverify (some "") = none ∧
    (∀ s : String, coerceVersion s = none → semverify (some s) = none) ∧
    (∀ (s : String) (v : SemVer), coerceVersion s = some v →
      semverify (some s) = some (renderSemVer v)) ∧
    semverify (some "10") = some "10.0.0" ∧
    semverify (some "2.5") = some "2.5.0" := by
  refine ⟨rfl, by decide, ?_, ?_, by decide, by decide⟩
  · intro s h
    unfold semverify semverifyV
    by_cases hs : s = "" <;> simp [hs, h]
  · intro s v h
    have hs : s ≠ "" := by
      intro he
      rw [he] at h
      have hnone : coerceVersion "" = none := by decide
      rw [hnone] at h
      exact Option.noConfusion h
    unfold semverify semverifyV
    simp [hs, h]

/-- Witness for C6: the uncoercible token TP yields null. -/
theorem claim_C6_semverify_null_contract_witness :
    semverify (some "TP") = none :=
  claim_C6_semverify_null_contract.2.2.1 "TP" (by decide)

/-- No alias key matches at any position: the query scanner finds nothing. -/
theorem normalizeQueryAux_none (cs : List Char) (h : containsAliasKey cs = false) :
    normalizeQueryAux cs = none := by
  induction cs with
  | nil => rfl
  | cons c cs ih =>
    rw [containsAliasKey] at h
    cases hf : findAliasAt (c :: cs) with
    | some kv => rw [hf] at h; simp at h
    | none =>
      rw [hf] at h
      simp only [Option.isSome_none, Bool.false_or] at h
      rw [normalizeQueryAux, hf, ih h]
      rfl

/-- If the first position where an alias key matches is p, the scanner rewrites
exactly there: the prefix and the remainder after the key survive verbatim. -/
theorem normalizeQueryAux_at (p : Nat) :
    ∀ (cs : List Char) (k v : String),
      findAliasAt (cs.drop p) = some (k, v) →
      (∀ i, i < p → findAliasAt (cs.drop i) = none) →
      normalizeQueryAux cs = some (cs.take p ++ v.data ++ cs.drop (p + k.length)) := by
  induction p with
  | zero =>
    intro cs k v h1 _
    cases cs with
    | nil =>
      rw [List.drop_nil] at h1
      have : findAliasAt [] = none := by decide
      rw [this] at h1
      exact Option.noConfusion h1
    | cons c cs =>
      rw [List.drop_zero] at h1
      rw [normalizeQueryAux, h1]
      simp
  | succ p ih =>
    intro cs k v h1 h2
    cases cs with
    | nil =>
      rw [List.drop_nil] at h1
      have : findAliasAt [] = none := by decide
      rw [this] at h1
      exact Option.noConfusion h1
    | cons c cs =>
      have h0 := h2 0 (Nat.succ_pos p)
      rw [List.drop_zero] at h0
      have ihh := ih cs k v (by simpa using h1)
        (fun i hi => by simpa using h2 (i + 1) (Nat.succ_lt_succ hi))
      rw [normalizeQueryAux, h0, ihh]
      have harith : p + 1 + k.length = (p + k.length) + 1 := by omega
      simp [harith]

/-- Claim C7 (confirmed): `normalizeQuery` rewrites only the first occurrence
of an alias key (leftmost position, alias-map order breaking ties at a
position), leaves the rest of the query untouched, and returns queries with no
alias-key occurrence unchanged. -/
theorem claim_C7_normalize_query_first_occurrence :
    (∀ q : String, containsAliasKey q.data = false → normalizeQuery q = q) ∧
    (∀ (q : String) (p : Nat) (k v : String),
      findAliasAt (q.data.drop p) = some (k, v) →
      (∀ i, i < p → findAliasAt (q.data.drop i) = none) →
      normalizeQuery q = String.mk (q.data.take p ++ v.data ++ q.data.drop (p + k.length))) ∧
    normalizeQuery "ie 11" = "Explorer 11" := by
  refine ⟨?_, ?_, by decide⟩
  · intro q h
    rw [normalizeQuery, normalizeQueryAux_none q.data h]
  · intro q p k v h1 h2
    rw [normalizeQuery, normalizeQueryAux_at p q.data k v h1 h2]

/-- Witness for C7: the first-occurrence rewrite at a concrete query. -/
theorem claim_C7_normalize_query_first_occurrence_witness :
    normalizeQuery "ie 11" =
      String.mk ("ie 11".data.take 0 ++ "Explorer".data ++ "ie 11".data.drop (0 + "ie".length)) :=
  claim_C7_normalize_query_first_occurrence.2.1 "ie 11" 0 "ie" "Explorer" (by decide)
    (fun i hi => absurd hi (by omega))

/-- A separator-free string splits into the single whole group. -/
theorem splitChar_sepFree (sep : Char) (cs : List Char) (h : ∀ c ∈ cs, c ≠ sep) :
    splitChar sep cs = [cs] := by
  induction cs with
  | nil => rfl
  | cons c cs ih =>
    have hc : c ≠ sep := h c (List.mem_cons_self c cs)
    have iha := ih (fun x hx => h x (List.mem_cons_of_mem c hx))
    simp [splitChar, iha, hc]

/-- Splitting at the first separator after a separator-free prefix peels the
prefix off as one group. -/
theorem splitChar_append (sep : Char) (a b : List Char) (h : ∀ c ∈ a, c ≠ sep) :
    splitChar sep (a ++ sep :: b) = a :: splitChar sep b := by
  induction a with
  | nil => simp [splitChar]
  | cons c a ih =>
    have hc : c ≠ sep := h c (List.mem_cons_self c a)
    have iha := ih (fun x hx => h x (List.mem_cons_of_mem c hx))
    simp [splitChar, iha, hc]

/-- Destructuring a well-formed name-space-version entry. -/
theorem splitEntry_pair (name ver : String) (hn : ∀ c ∈ name.data, c ≠ ' ')
    (hv : ∀ c ∈ ver.data, c ≠ ' ') :
    splitEntry (name ++ " " ++ ver) = (name, some ver) := by
  unfold splitEntry
  have hblank : (" " : String).data = [' '] := rfl
  have hdata : (name ++ " " ++ ver).data = name.data ++ ' ' :: ver.data := by
    simp [String.data_append, hblank]
  rw [hdata, splitChar_append ' ' name.data ver.data hn, splitChar_sepFree ' ' ver.data hv]
  rfl

/-- Destructuring an entry with no space: the version comes out undefined. -/
theorem splitEntry_noSpace (e : String) (h : ∀ c ∈ e.data, c ≠ ' ') :
    splitEntry e = (e, none) := by
  unfold splitEntry
  rw [splitChar_sepFree ' ' e.data h]
  rfl

/-- An entry with no space survives the TP filter with an undefined version and
the hyphen test then throws. -/
theorem processEntry_noSpace (fuel : Nat) (e : String) (h : ∀ c ∈ e.data, c ≠ ' ') :
    processEntry fuel e = some .thrown := by
  unfold processEntry
  rw [splitEntry_noSpace e h]
  rfl

/-- A well-formed non-range, non-TP entry parses to a single aliased entry with
the version token untouched. -/
theorem processEntry_plain (fuel : Nat) (name ver : String)
    (hn : ∀ c ∈ name.data, c ≠ ' ') (hv : ∀ c ∈ ver.data, c ≠ ' ')
    (htp : ver ≠ "TP") (hr : hyphenAfterStart ver = false) :
    processEntry fuel (name ++ " " ++ ver) =
      some (.ok [{ family := (lookupAlias name).getD name, version := ver }]) := by
  unfold processEntry
  rw [splitEntry_pair name ver hn hv]
  cases hla : lookupAlias name <;> simp [htp, hr, hla, Option.getD]

/-- A TP entry is dropped. -/
theorem processEntry_tp (fuel : Nat) (name : String) (hn : ∀ c ∈ name.data, c ≠ ' ') :
    processEntry fuel (name ++ " " ++ "TP") = some (.ok []) := by
  unfold processEntry
  rw [splitEntry_pair name "TP" hn (by decide)]
  rfl

/-- A well-formed range entry expands in place, one entry per version. -/
theorem processEntry_range (fuel : Nat) (name ver : String) (vs : List String)
    (hn : ∀ c ∈ name.data, c ≠ ' ') (hv : ∀ c ∈ ver.data, c ≠ ' ')
    (htp : ver ≠ "TP") (hr : hyphenAfterStart ver = true)
    (hg : generateSemversInRange ver fuel = some vs) :
    processEntry fuel (name ++ " " ++ ver) =
      some (.ok (vs.map (fun v => { family := (lookupAlias name).getD name, version := v }))) := by
  unfold processEntry
  rw [splitEntry_pair name ver hn hv]
  cases hla : lookupAlias name <;> simp [htp, hr, hla, hg, Option.getD]

/-- Claim C3 (amended): each entry is split at its space into name and version;
TP entries are dropped; the name is aliased by exact lookup in the alias map
(so a name that is not an alias key, such as the lowercase query token
chrome, is kept verbatim); hyphenated ranges expand in place; other version
tokens are emitted unchanged.  The worked example therefore yields lowercase
chrome families, not Chrome. -/
theorem claim_C3_parse_browsers_list :
    (∀ (name ver : String) (fuel : Nat),
      (∀ c ∈ name.data, c ≠ ' ') → (∀ c ∈ ver.data, c ≠ ' ') →
      ver ≠ "TP" → hyphenAfterStart ver = false →
      parseBrowsersList [name ++ " " ++ ver] fuel =
        some (.ok [{ family := (lookupAlias name).getD name, version := ver }])) ∧
    (∀ (name : String) (fuel : Nat), (∀ c ∈ name.data, c ≠ ' ') →
      parseBrowsersList [name ++ " " ++ "TP"] fuel = some (.ok [])) ∧
    (∀ (name ver : String) (fuel : Nat) (vs : List String),
      (∀ c ∈ name.data, c ≠ ' ') → (∀ c ∈ ver.data, c ≠ ' ') →
      ver ≠ "TP" → hyphenAfterStart ver = true →
      generateSemversInRange ver fuel = some vs →
      parseBrowsersList [name ++ " " ++ ver] fuel =
        some (.ok (vs.map (fun v => { family := (lookupAlias name).getD name, version := v })))) ∧
    parseBrowsersList ["ie 11", "chrome 10.0-10.2", "firefox TP"] 10 =
      some (.ok [{ family := "Explorer", version := "11" },
                 { family := "chrome", version := "10.0.0" },
                 { family := "chrome", version := "10.1.0" },
                 { family := "chrome", version := "10.2.0" }]) := by
  refine ⟨?_, ?_, ?_, by decide⟩
  · intro name ver fuel hn hv htp hr
    unfold parseBrowsersList
    rw [processEntry_plain fuel name ver hn hv htp hr]
    simp [parseBrowsersList]
  · intro name fuel hn
    unfold parseBrowsersList
    rw [processEntry_tp fuel name hn]
    simp [parseBrowsersList]
  · intro name ver fuel vs hn hv htp hr hg
    unfold parseBrowsersList
    rw [processEntry_range fuel name ver vs hn hv htp hr hg]
    simp [parseBrowsersList]

/-- Witness for C3: the alias-and-keep-version case at a concrete entry. -/
theorem claim_C3_parse_browsers_list_witness :
    parseBrowsersList ["ie" ++ " " ++ "11"] 0 =
      some (.ok [{ family := (lookupAlias "ie").getD "ie", version := "11" }]) :=
  claim_C3_parse_browsers_list.1 "ie" "11" 0 (by decide) (by decide) (by decide) (by decide)

/-- Counterexample for C3 as stated: the claimed output capitalizes the Chrome
family, but chrome is not an alias-map key, so the code keeps the lowercase
query token. -/
theorem claim_C3_parse_browsers_list_cex :
    parseBrowsersList ["ie 11", "chrome 10.0-10.2", "firefox TP"] 10 ≠
      some (.ok [{ family := "Explorer", version := "11" },
                 { family := "Chrome", version := "10.0.0" },
                 { family := "Chrome", version := "10.1.0" },
                 { family := "Chrome", version := "10.2.0" }]) := by decide

/-- Claim C10 (confirmed): an entry without a space yields an undefined version
that survives the TP filter, and the hyphen test then dereferences it: no list
containing such an entry can ever evaluate to an ok result, and the
single-entry case throws for every fuel. -/
theorem claim_C10_no_space_entry_throws :
    (∀ (l : List String) (e : String) (fuel : Nat) (res : JsOutcome (List QueryEntry)),
      e ∈ l → (∀ c ∈ e.data, c ≠ ' ') →
      parseBrowsersList l fuel = some res → res = .thrown) ∧
    (∀ fuel : Nat, parseBrowsersList ["chrome"] fuel = some .thrown) := by
  constructor
  · intro l
    induction l with
    | nil => intro e fuel res hmem; exact absurd hmem (List.not_mem_nil e)
    | cons b rest ih =>
      intro e fuel res hmem hns hparse
      unfold parseBrowsersList at hparse
      rcases List.mem_cons.mp hmem with heq | hmem2
      · subst heq
        rw [processEntry_noSpace fuel e hns] at hparse
        exact (Option.some_inj.mp hparse).symm
      · cases hpe : processEntry fuel b with
        | none => rw [hpe] at hparse; exact Option.noConfusion hparse
        | some o =>
          rw [hpe] at hparse
          cases o with
          | thrown => exact (Option.some_inj.mp hparse).symm
          | ok items =>
            cases hrest : parseBrowsersList rest fuel with
            | none => rw [hrest] at hparse; exact Option.noConfusion hparse
            | some o2 =>
              rw [hrest] at hparse
              cases o2 with
              | thrown => exact (Option.some_inj.mp hparse).symm
              | ok r2 => exact absurd (ih e fuel (.ok r2) hmem2 hns hrest) (by simp)
  · intro fuel
    unfold parseBrowsersList
    rw [processEntry_noSpace fuel "chrome" (by decide)]

/-- Witness for C10: the concrete no-space entry chrome makes the parser throw,
and the general statement identifies that outcome as the thrown TypeError. -/
theorem claim_C10_no_space_entry_throws_witness :
    ∃ res : JsOutcome (List QueryEntry),
      parseBrowsersList ["chrome"] 3 = some res ∧ res = JsOutcome.thrown :=
  ⟨.thrown, claim_C10_no_space_entry_throws.2 3,
    claim_C10_no_space_entry_throws.1 ["chrome"] "chrome" 3 .thrown (by simp) (by decide)
      (claim_C10_no_space_entry_throws.2 3)⟩

/-- Claim C8 (amended): the empty-UA short circuit returns false before any
other work, for every resolver, parser, options and fuel; and a null resolved
family or version yields false provided the query-result list itself parses
without throwing.  (Without that proviso the claim fails: a malformed query
entry throws before the existential scan, see the counterexample.) -/
theorem claim_C8_matches_ua_fails_closed :
    (∀ (blResolver : Option (List String) → List String) (uaParse : String → ParsedUA)
       (opts : Options) (fuel : Nat),
      matchesUA blResolver uaParse "" opts fuel = some (.ok false)) ∧
    (∀ (blResolver : Option (List String) → List String) (uaParse : String → ParsedUA)
       (uaString : String) (opts : Options) (fuel : Nat) (parsed : List QueryEntry),
      parseBrowsersList (blResolver (opts.browsers.map (fun l => l.map normalizeQuery))) fuel =
        some (.ok parsed) →
      (resolveUserAgent (uaParse uaString)).family = none ∨
        (resolveUserAgent (uaParse uaString)).version = none →
      matchesUA blResolver uaParse uaString opts fuel = some (.ok false)) := by
  constructor
  · intro blResolver uaParse opts fuel
    simp [matchesUA]
  · intro blResolver uaParse uaString opts fuel parsed hparse hnull
    by_cases hua : uaString = ""
    · simp [matchesUA, hua]
    · unfold matchesUA
      rw [if_neg hua]
      simp only
      rw [hparse]
      simp only [Option.some.injEq, JsOutcome.ok.injEq]
      have hfalse : ∀ b : QueryEntry,
          (match (resolveUserAgent (uaParse uaString)).family,
                 (resolveUserAgent (uaParse uaString)).version with
           | some fam, some ver =>
             if fam = "" ∨ ver = "" ∨ b.version = "" then false
             else
               lowerStr b.family = lowerStr fam &&
                 compareBrowserSemvers ver b.version
                   { opts with
                     ignoreMinor := some (truthy opts.ignoreMinor),
                     ignorePatch := some (opts.ignorePatch.getD true) }
           | _, _ => false) = false := by
        intro b
        rcases hnull with h | h
        · rw [h]
        · rw [h]
          cases (resolveUserAgent (uaParse uaString)).family <;> rfl
      have hany : ∀ l : List QueryEntry,
          (l.any (fun browser =>
            match (resolveUserAgent (uaParse uaString)).family,
                  (resolveUserAgent (uaParse uaString)).version with
            | some fam, some ver =>
              if fam = "" ∨ ver = "" ∨ browser.version = "" then false
              else
                lowerStr browser.family = lowerStr fam &&
                  compareBrowserSemvers ver browser.version
                    { opts with
                      ignoreMinor := some (truthy opts.ignoreMinor),
                      ignorePatch := some (opts.ignorePatch.getD true) }
            | _, _ => false)) = false := by
        intro l
        induction l with
        | nil => rfl
        | cons x xs ihx => rw [List.any_cons, hfalse x, ihx]; rfl
      exact hany parsed

/-- Witness for C8: the empty-UA short circuit at concrete arguments. -/
theorem claim_C8_matches_ua_fails_closed_witness :
    matchesUA (fun _ => []) (fun _ => ParsedUA.mk none none none none none none none)
      "" {} 0 = some (.ok false) :=
  claim_C8_matches_ua_fails_closed.1 (fun _ => [])
    (fun _ => ParsedUA.mk none none none none none none none) {} 0

/-- Counterexample for C8 as stated: a UA whose resolved family is null should,
by the claim, yield false for every query-result list; but a query list with a
spaceless entry makes the parser throw before the existential scan, so the
call errors instead of returning false. -/
theorem claim_C8_matches_ua_fails_closed_cex :
    matchesUA (fun _ => ["chrome"]) (fun _ => ParsedUA.mk none none none none none none none)
      "x" {} 5 = some .thrown ∧
    (resolveUserAgent (ParsedUA.mk none none none none none none none)).family = none := by
  decide

/-- A version with a strictly smaller major is below under semver order. -/
theorem semverGte_of_major_lt (e c : SemVer) (h : c.major < e.major) :
    semverGte e c = true := by
  simp [semverGte]
  omega

/-- Divergence of the range loop across majors: the minor-stepping cursor never
changes its major, so the continuation test keeps succeeding and every fuel
runs out. -/
theorem genLoopFuel_cross (e c : SemVer) (h : c.major < e.major) :
    ∀ n, genLoopFuel e c n = none := by
  intro n
  induction n generalizing c with
  | zero => rfl
  | succ n ih =>
    have hg := semverGte_of_major_lt e c h
    have hm : (incMinor c).major < e.major := h
    rw [genLoopFuel, if_pos hg, ih (incMinor c) hm]
    rfl

/-- Visit count when the loop body runs at least once. -/
theorem enumCount_pos_eq (sv ev : SemVer) (hg : semverGte ev sv = true) :
    enumCount sv ev = ev.minor + 1 - sv.minor := by
  rw [enumCount, if_pos hg]

/-- Visit count when the continuation test fails immediately. -/
theorem enumCount_neg_eq (sv ev : SemVer) (hg : semverGte ev sv = false) :
    enumCount sv ev = 0 := by
  rw [enumCount, if_neg (by simp [hg])]

/-- The visit-count bound is exact: position i is visited exactly when the end
is still at least the i-th stepped version. -/
theorem enumCount_lt_iff (sv ev : SemVer) (hmaj : ev.major ≤ sv.major) (i : Nat) :
    i < enumCount sv ev ↔ semverGte ev (stepVersion sv i) = true := by
  cases hg : semverGte ev sv with
  | false =>
    have hP := hg
    simp only [semverGte, decide_eq_false_iff_not] at hP
    rw [enumCount_neg_eq sv ev hg]
    constructor
    · intro h
      omega
    · intro hc
      exfalso
      cases i with
      | zero =>
        rw [show stepVersion sv 0 = sv from rfl, hg] at hc
        exact Bool.noConfusion hc
      | succ j =>
        have hQ := hc
        simp only [stepVersion, Nat.succ_ne_zero, if_false, semverGte,
          decide_eq_true_eq] at hQ
        omega
  | true =>
    have hP := hg
    simp only [semverGte, decide_eq_true_eq] at hP
    rw [enumCount_pos_eq sv ev hg]
    cases i with
    | zero =>
      rw [show stepVersion sv 0 = sv from rfl, hg]
      simp only [iff_true]
      omega
    | succ j =>
      constructor
      · intro hlt
        simp only [stepVersion, Nat.succ_ne_zero, if_false, semverGte,
          decide_eq_true_eq]
        omega
      · intro hc
        have hQ := hc
        simp only [stepVersion, Nat.succ_ne_zero, if_false, semverGte,
          decide_eq_true_eq] at hQ
        omega

/-- Stepping from the bumped cursor is stepping one further from the start. -/
theorem stepVersion_succ (c : SemVer) (i : Nat) :
    stepVersion c (i + 1) = stepVersion (incMinor c) i := by
  cases i with
  | zero => rfl
  | succ j =>
    simp [stepVersion, incMinor]
    omega

/-- Peeling one loop iteration off the finite enumeration. -/
theorem enumFrom_cons (c e : SemVer) (hmaj : e.major ≤ c.major)
    (hg : semverGte e c = true) :
    enumFrom c e = c :: enumFrom (incMinor c) e := by
  have hP := hg
  simp only [semverGte, decide_eq_true_eq] at hP
  have hc1 : enumCount c e = (e.minor - c.minor) + 1 := by
    rw [enumCount_pos_eq c e hg]
    omega
  have hc2 : enumCount (incMinor c) e = e.minor - c.minor := by
    cases hg2 : semverGte e (incMinor c) with
    | true =>
      have hP2 := hg2
      simp only [semverGte, incMinor, decide_eq_true_eq] at hP2
      rw [enumCount_pos_eq (incMinor c) e hg2]
      simp only [incMinor]
      omega
    | false =>
      have hP2 := hg2
      simp only [semverGte, incMinor, decide_eq_false_iff_not] at hP2
      rw [enumCount_neg_eq (incMinor c) e hg2]
      omega
  rw [enumFrom, enumFrom, hc1, hc2, List.range_succ_eq_map]
  simp only [List.map_cons, List.map_map]
  have hstep : (stepVersion c ∘ Nat.succ) = stepVersion (incMinor c) :=
    funext (fun i => stepVersion_succ c i)
  rw [hstep]
  have hzero : stepVersion c 0 = c := rfl
  rw [hzero]

/-- When the end's major does not exceed the start's, the loop terminates with
the expected enumeration as soon as the fuel exceeds the visit count. -/
theorem genLoopFuel_term (e : SemVer) :
    ∀ (n : Nat) (c : SemVer), e.major ≤ c.major →
      enumCount c e < n → genLoopFuel e c n = some (enumFrom c e) := by
  intro n
  induction n with
  | zero => intro c hmaj hcount; omega
  | succ n ih =>
    intro c hmaj hcount
    cases hg : semverGte e c with
    | false =>
      rw [genLoopFuel, if_neg (by simp [hg])]
      rw [enumFrom, enumCount_neg_eq c e hg]
      rfl
    | true =>
      have hP := hg
      simp only [semverGte, decide_eq_true_eq] at hP
      have h1 : enumCount c e = e.minor + 1 - c.minor := enumCount_pos_eq c e hg
      have h2 : enumCount (incMinor c) e ≤ e.minor - c.minor := by
        cases hg2 : semverGte e (incMinor c) with
        | true =>
          have hP2 := hg2
          simp only [semverGte, incMinor, decide_eq_true_eq] at hP2
          rw [enumCount_pos_eq (incMinor c) e hg2]
          simp only [incMinor]
          omega
        | false =>
          rw [enumCount_neg_eq (incMinor c) e hg2]
          omega
      have hcount3 : enumCount (incMinor c) e < n := by omega
      rw [genLoopFuel, if_pos hg, ih (incMinor c) hmaj hcount3,
        enumFrom_cons c e hmaj hg]
      rfl

/-- Index-wise description of the finite enumeration. -/
theorem enumFrom_getElem (sv ev : SemVer) (hmaj : ev.major ≤ sv.major) (i : Nat) :
    (enumFrom sv ev)[i]? =
      (if semverGte ev (stepVersion sv i) = true then some (stepVersion sv i) else none) := by
  have hiff := enumCount_lt_iff sv ev hmaj i
  by_cases hlt : i < enumCount sv ev
  · simp [enumFrom, List.getElem?_map, List.getElem?_range, hlt, hiff.mp hlt]
  · have hng : ¬ semverGte ev (stepVersion sv i) = true := fun hc => hlt (hiff.mpr hc)
    simp [enumFrom, List.getElem?_map, List.getElem?_range, hlt, hng]
    omega

/-- Claim C4 (amended): the range token splits at the hyphen and both
boundaries are normalized; if either fails the result is the empty sequence;
when the normalized end's major does not exceed the start's, the loop
terminates and the result lists exactly the minor-stepped versions (patch
reset to 0 after the start) for as long as end is at least the current
version; but when start.major is below end.major that enumeration never ends
and the code produces no result at all (see the counterexample). -/
theorem claim_C4_generate_semvers_in_range :
    (∀ (r : String) (fuel : Nat),
      (rangeBounds r).1 = none ∨ (rangeBounds r).2 = none →
      generateSemversInRange r fuel = some []) ∧
    (∀ (r : String) (sv ev : SemVer),
      rangeBounds r = (some sv, some ev) → ev.major ≤ sv.major →
      ∃ (fuel : Nat) (vs : List String),
        generateSemversInRange r fuel = some vs ∧
        ∀ i : Nat, vs[i]? =
          (if semverGte ev (stepVersion sv i) = true
           then some (renderSemVer (stepVersion sv i)) else none)) ∧
    generateSemversInRange "10.0-10.2" 4 = some ["10.0.0", "10.1.0", "10.2.0"] ∧
    (∀ fuel : Nat, generateSemversInRange "garbage-10.2" fuel = some []) := by
  refine ⟨?_, ?_, by decide, ?_⟩
  · intro r fuel h
    unfold generateSemversInRange
    cases hrb : rangeBounds r with
    | mk b1 b2 =>
      rw [hrb] at h
      cases b1 with
      | none => rfl
      | some s =>
        cases b2 with
        | none => rfl
        | some e =>
          rcases h with h | h <;> exact Option.noConfusion h
  · intro r sv ev hrb hmaj
    refine ⟨enumCount sv ev + 1, (enumFrom sv ev).map renderSemVer, ?_, ?_⟩
    · unfold generateSemversInRange
      rw [hrb]
      show (genLoopFuel ev sv (enumCount sv ev + 1)).map (List.map renderSemVer) =
        some ((enumFrom sv ev).map renderSemVer)
      rw [genLoopFuel_term ev (enumCount sv ev + 1) sv hmaj (Nat.lt_succ_self _)]
      rfl
    · intro i
      rw [List.getElem?_map, enumFrom_getElem sv ev hmaj i]
      by_cases hg : semverGte ev (stepVersion sv i) = true <;> simp [hg]
  · intro fuel
    unfold generateSemversInRange
    rw [show rangeBounds "garbage-10.2" =
      ((none : Option SemVer), some (SemVer.mk 10 2 0)) from by decide]

/-- Witness for C4: the finite branch at the worked range, with its exact
index-wise enumeration. -/
theorem claim_C4_generate_semvers_in_range_witness :
    ∃ (fuel : Nat) (vs : List String),
      generateSemversInRange "10.0-10.2" fuel = some vs ∧
      ∀ i : Nat, vs[i]? =
        (if semverGte (SemVer.mk 10 2 0) (stepVersion (SemVer.mk 10 0 0) i) = true
         then some (renderSemVer (stepVersion (SemVer.mk 10 0 0) i)) else none) :=
  claim_C4_generate_semvers_in_range.2.1 "10.0-10.2" (SemVer.mk 10 0 0) (SemVer.mk 10 2 0)
    (by decide) (by decide)

/-- Counterexample for C4 as stated: both boundaries of 1.0-3.0 normalize, yet
the code never produces the claimed enumeration for any amount of fuel: the
while condition holds cofinally because the cursor's major never reaches the
end's. -/
theorem claim_C4_generate_semvers_in_range_cex :
    rangeBounds "1.0-3.0" = (some (SemVer.mk 1 0 0), some (SemVer.mk 3 0 0)) ∧
    ¬ rangeTerminates "1.0-3.0" := by
  constructor
  · decide
  · rintro ⟨fuel, hf⟩
    have hnone : generateSemversInRange "1.0-3.0" fuel = none := by
      unfold generateSemversInRange
      rw [show rangeBounds "1.0-3.0" =
        (some (SemVer.mk 1 0 0), some (SemVer.mk 3 0 0)) from by decide]
      show (genLoopFuel (SemVer.mk 3 0 0) (SemVer.mk 1 0 0) fuel).map (List.map renderSemVer) =
        none
      rw [genLoopFuel_cross (SemVer.mk 3 0 0) (SemVer.mk 1 0 0) (by decide) fuel]
      rfl
    rw [hnone] at hf
    simp at hf

/-- Claim C9 (amended): each minor step strictly increases the cursor but never
its major, so the loop terminates exactly when the normalized end's major does
not exceed the normalized start's; when start.major < end.major the
continuation test end at-least cursor never fails and the loop runs forever. -/
theorem claim_C9_range_loop_termination :
    (∀ (r : String) (sv ev : SemVer), rangeBounds r = (some sv, some ev) →
      ev.major ≤ sv.major → rangeTerminates r) ∧
    (∀ (r : String) (sv ev : SemVer), rangeBounds r = (some sv, some ev) →
      sv.major < ev.major → ¬ rangeTerminates r) := by
  constructor
  · intro r sv ev hrb hmaj
    refine ⟨enumCount sv ev + 1, ?_⟩
    unfold generateSemversInRange
    rw [hrb]
    show ((genLoopFuel ev sv (enumCount sv ev + 1)).map (List.map renderSemVer)).isSome = true
    rw [genLoopFuel_term ev (enumCount sv ev + 1) sv hmaj (Nat.lt_succ_self _)]
    rfl
  · intro r sv ev hrb hmaj
    rintro ⟨fuel, hf⟩
    unfold generateSemversInRange at hf
    rw [hrb] at hf
    have hf2 : ((genLoopFuel ev sv fuel).map (List.map renderSemVer)).isSome = true := hf
    rw [genLoopFuel_cross ev sv hmaj fuel] at hf2
    simp at hf2

/-- Witness for C9: the worked same-major range terminates. -/
theorem claim_C9_range_loop_termination_witness :
    rangeTerminates "10.0-10.2" :=
  claim_C9_range_loop_termination.1 "10.0-10.2" (SemVer.mk 10 0 0) (SemVer.mk 10 2 0)
    (by decide) (by decide)

/-- Counterexample for C9 as stated: both boundaries of 1.0-2.0 normalize, yet
the loop never terminates, because the minor-only increments keep the cursor's
major at 1 while the end's major is 2. -/
theorem claim_C9_range_loop_termination_cex :
    ¬ rangeTerminates "1.0-2.0" := by
  rintro ⟨fuel, hf⟩
  unfold generateSemversInRange at hf
  rw [show rangeBounds "1.0-2.0" =
    (some (SemVer.mk 1 0 0), some (SemVer.mk 2 0 0)) from by decide] at hf
  have hf2 : ((genLoopFuel (SemVer.mk 2 0 0) (SemVer.mk 1 0 0) fuel).map
      (List.map renderSemVer)).isSome = true := hf
  rw [genLoopFuel_cross (SemVer.mk 2 0 0) (SemVer.mk 1 0 0) (by decide) fuel] at hf2
  simp at hf2
